import Mathlib

/-!
Verification of the mcp-claude-node gateway: a shallow embedding of the
subprocess runner, the retry controllers, the JSON extraction helpers, the
CLI argument builder, the tool-call dispatcher and the serialized output
queue, with theorems settling the specified properties.

Strings are modelled with Lean `String`; character-level operations
(index-of, substring) go through `String.toList`, which is faithful for the
ASCII data these functions handle. The JavaScript builtin `JSON.parse` is
modelled by an executable recursive-descent parser over the JSON grammar
(objects, arrays, strings with escapes, numbers, literals), and
`JSON.stringify` of the error report by explicit string building with the
standard JSON string escaping.
-/

/-- Outcome of one subprocess execution attempt (`ClaudeExecutionResult` in
`types.ts`): success flag, collected output text, exit code. -/
structure ClaudeExecutionResult where
  success : Bool
  output : String
  exitCode : Int
deriving DecidableEq, Repr

/-- How one spawned subprocess invocation settled. The runner resolves its
promise exactly once, from one of these three events:
the timeout timer fired first (the `killed` flag is set and the process is
SIGKILLed before its `close` event), the `close` event fired with the flag
unset (exit code `none` models a `null` code from signal termination), or
the `error` event fired (the process could not be started). -/
inductive ProcEnd where
  | timedOut
  | exited (code : Option Int) (stdout : String) (stderr : String)
  | spawnFailed (message : String)

/-- JavaScript template interpolation of the exit code: `null` prints as
the text `null`. -/
def jsCodeText : Option Int → String
  | some n => toString n
  | none => "null"

/-- The `close` / `error` handlers of `executeClaudeCli` in `tools.ts`:
timeout beats everything; exit code 0 is success with stdout; a nonzero
exit reports stderr, falling back to stdout, falling back to an
`Exit code: N` message (the JS `||` chain on possibly empty strings), with
exit code `code ?? 1`; a spawn failure reports the error message with exit
code 1. -/
def executeClaudeCli : ProcEnd → ClaudeExecutionResult
  | .timedOut => ⟨false, "Command timeout", 124⟩
  | .exited code stdout stderr =>
      if code = some 0 then
        ⟨true, stdout, 0⟩
      else
        ⟨false,
         if stderr ≠ "" then stderr
         else if stdout ≠ "" then stdout
         else "Exit code: " ++ jsCodeText code,
         code.getD 1⟩
  | .spawnFailed msg => ⟨false, "Spawn error: " ++ msg, 1⟩

/-- Observable effects of a retry controller run: one subprocess execution
(tagged with the 1-based attempt number) or one `sleep` of the given
number of milliseconds. -/
inductive RetryEvent where
  | exec (attempt : Int)
  | sleep (ms : Nat)
deriving DecidableEq, Repr

/-- Flattened invocation options (`ClaudeCliOptions` in `types.ts`). -/
structure ClaudeCliOptions where
  model : String
  timeout : Int
  maxRetries : Int
  maxTurns : Option Int
  outputFormat : String
  jsonSchema : Option String
  systemPrompt : Option String
  appendSystemPrompt : Option String
  allowedTools : Option (List String)
  disallowedTools : Option (List String)
  addDirs : Option (List String)
  verbose : Bool
deriving DecidableEq, Repr

/-- The synthesized outcome `runWithRetry` returns when its loop exhausts
through the timeout path (or runs zero iterations). -/
def maxRetriesResult (maxRetries : Int) : ClaudeExecutionResult :=
  ⟨false, "Max retries reached after " ++ toString maxRetries ++ " attempts", 1⟩

/-- The attempt loop of `runWithRetry` in `tools.ts`. `exec` gives the
outcome of each attempt (each attempt being one `executeClaudeCli`
invocation); `attempt` is the loop counter and `fuel` the number of loop
iterations that remain, `(maxRetries - attempt + 1).toNat` at every call,
so that running out of fuel is exactly the loop condition
`attempt <= maxRetries` failing. Returns the event trace together with
the returned outcome. On success: return at once. On a failure with exit
code 124 or 137: sleep 5000 ms when attempts remain, then loop (falling
through to the synthesized result when they do not). On any other
failure: sleep 2000 ms and loop when attempts remain, otherwise return
that failing outcome directly. -/
def runWithRetryLoop (exec : Int → ClaudeExecutionResult) (maxRetries : Int) :
    Int → Nat → List RetryEvent × ClaudeExecutionResult
  | _, 0 => ([], maxRetriesResult maxRetries)
  | attempt, fuel + 1 =>
      let result := exec attempt
      if result.success then
        ([.exec attempt], result)
      else if result.exitCode = 124 ∨ result.exitCode = 137 then
        if attempt < maxRetries then
          let rest := runWithRetryLoop exec maxRetries (attempt + 1) fuel
          (.exec attempt :: .sleep 5000 :: rest.1, rest.2)
        else
          let rest := runWithRetryLoop exec maxRetries (attempt + 1) fuel
          (.exec attempt :: rest.1, rest.2)
      else
        if attempt < maxRetries then
          let rest := runWithRetryLoop exec maxRetries (attempt + 1) fuel
          (.exec attempt :: .sleep 2000 :: rest.1, rest.2)
        else
          ([.exec attempt], result)

/-- `runWithRetry` in `tools.ts`: run the attempt loop from attempt 1.
A `maxRetries` of zero or less runs no attempt at all and yields the
synthesized max-retries outcome. -/
def runWithRetry (exec : Int → ClaudeExecutionResult) (options : ClaudeCliOptions) :
    List RetryEvent × ClaudeExecutionResult :=
  runWithRetryLoop exec options.maxRetries 1 options.maxRetries.toNat

example :
    runWithRetry (fun _ => ⟨false, "boom", 2⟩)
      ⟨"haiku", 660, 2, none, "json", none, none, none, none, none, none, false⟩ =
      ([.exec 1, .sleep 2000, .exec 2], ⟨false, "boom", 2⟩) := by decide

example :
    runWithRetry (fun _ => ⟨false, "t", 124⟩)
      ⟨"haiku", 660, 2, none, "json", none, none, none, none, none, none, false⟩ =
      ([.exec 1, .sleep 5000, .exec 2], maxRetriesResult 2) := by decide

example :
    runWithRetry (fun a => if a = 1 then ⟨false, "x", 2⟩ else ⟨true, "ok", 0⟩)
      ⟨"haiku", 660, 3, none, "json", none, none, none, none, none, none, false⟩ =
      ([.exec 1, .sleep 2000, .exec 2], ⟨true, "ok", 0⟩) := by decide

/-! ### A model of the JavaScript builtin `JSON.parse`

An executable recursive-descent parser over the JSON grammar of RFC 8259:
literals, numbers, strings with escapes, arrays and objects. Whitespace is
space, tab, line feed and carriage return. The parser recurses structurally
on a fuel counter; every nested call strictly shrinks the input, so a fuel
of one more than the input length never runs out. -/

/-- The opening brace character. -/
def lbrace : Char := Char.ofNat 123

/-- The closing brace character. -/
def rbrace : Char := Char.ofNat 125

/-- A parsed JSON value. Numbers keep their lexeme only: no claim under
verification depends on numeric magnitude. -/
inductive JsonValue where
  | null
  | boolean (b : Bool)
  | number (lexeme : List Char)
  | string (s : List Char)
  | array (elems : List JsonValue)
  | object (fields : List (List Char × JsonValue))

/-- JSON whitespace. -/
def jsonWs (c : Char) : Bool := c = ' ' || c = '\t' || c = '\n' || c = '\r'

/-- Drop leading JSON whitespace. -/
def skipWs (cs : List Char) : List Char :=
  match cs with
  | [] => []
  | c :: rest => if jsonWs c then skipWs rest else cs

/-- ASCII digit test, by code point. -/
def isDigitCh (c : Char) : Bool := 48 ≤ c.toNat && c.toNat ≤ 57

/-- Split off a leading run of digits. -/
def spanDigits : List Char → List Char × List Char
  | c :: rest =>
      if isDigitCh c then
        let p := spanDigits rest
        (c :: p.1, p.2)
      else ([], c :: rest)
  | [] => ([], [])

/-- Value of one hex digit, by code point (digits, then the lowercase and
uppercase letter ranges). -/
def hexDigitVal (c : Char) : Option Nat :=
  let n := c.toNat
  if 48 ≤ n && n ≤ 57 then some (n - 48)
  else if 97 ≤ n && n ≤ 102 then some (n - 87)
  else if 65 ≤ n && n ≤ 70 then some (n - 55)
  else none

/-- The single-character JSON string escapes. -/
def escChar : Char → Option Char
  | '"' => some '"'
  | '\\' => some '\\'
  | '/' => some '/'
  | 'b' => some (Char.ofNat 8)
  | 'f' => some (Char.ofNat 12)
  | 'n' => some '\n'
  | 'r' => some '\r'
  | 't' => some '\t'
  | _ => none

/-- Parse the body of a JSON string after its opening quote, returning the
decoded characters and the input after the closing quote. Raw control
characters are rejected, as `JSON.parse` rejects them. -/
def parseStringBody : List Char → Option (List Char × List Char)
  | [] => none
  | '"' :: rest => some ([], rest)
  | '\\' :: 'u' :: a :: b :: c :: d :: rest =>
      match hexDigitVal a, hexDigitVal b, hexDigitVal c, hexDigitVal d with
      | some va, some vb, some vc, some vd =>
          match parseStringBody rest with
          | some (s, r) => some (Char.ofNat (((va * 16 + vb) * 16 + vc) * 16 + vd) :: s, r)
          | none => none
      | _, _, _, _ => none
  | '\\' :: e :: rest =>
      match escChar e with
      | some ch =>
          match parseStringBody rest with
          | some (s, r) => some (ch :: s, r)
          | none => none
      | none => none
  | c :: rest =>
      if c.toNat < 32 then none
      else
        match parseStringBody rest with
        | some (s, r) => some (c :: s, r)
        | none => none

/-- Integer part of a JSON number: `0`, or a nonzero digit followed by
digits (leading zeros are rejected). Returns the remaining input. -/
def parseIntPart : List Char → Option (List Char)
  | '0' :: rest =>
      match rest with
      | c :: _ => if isDigitCh c then none else some rest
      | [] => some []
  | c :: rest => if isDigitCh c then some (spanDigits rest).2 else none
  | [] => none

/-- Optional fraction part: a dot must be followed by at least one digit. -/
def parseFracPart : List Char → Option (List Char)
  | '.' :: rest =>
      match rest with
      | c :: r2 => if isDigitCh c then some (spanDigits r2).2 else none
      | [] => none
  | cs => some cs

/-- Optional exponent part: `e` or `E`, an optional sign, then at least
one digit. -/
def parseExpPart : List Char → Option (List Char)
  | c :: rest =>
      if c = 'e' || c = 'E' then
        let afterSign := match rest with
          | s :: r2 => if s = '+' || s = '-' then r2 else s :: r2
          | [] => []
        match afterSign with
        | c2 :: r3 => if isDigitCh c2 then some (spanDigits r3).2 else none
        | [] => none
      else some (c :: rest)
  | [] => some []

/-- Parse a JSON number, returning its lexeme and the remaining input. -/
def parseNumber (cs : List Char) : Option (List Char × List Char) := do
  let afterSign := match cs with
    | '-' :: r => r
    | _ => cs
  let r1 ← parseIntPart afterSign
  let r2 ← parseFracPart r1
  let r3 ← parseExpPart r2
  some (cs.take (cs.length - r3.length), r3)

/-- Parse one JSON value (leading whitespace allowed), returning it and the
remaining input. Arrays and objects parse their element lists by recursing
on a reconstructed opener after each comma; a comma directly before a
closer is rejected, as `JSON.parse` rejects trailing commas. Every
recursive call strictly shrinks the input, so the fuel decrement is never
the reason a well-formed input fails. -/
def parseValue : Nat → List Char → Option (JsonValue × List Char)
  | 0, _ => none
  | fuel + 1, input =>
    match skipWs input with
    | [] => none
    | c :: rest =>
      if c = '[' then
        match skipWs rest with
        | ']' :: r => some (.array [], r)
        | r =>
          match parseValue fuel r with
          | some (v, r2) =>
            match skipWs r2 with
            | ',' :: r3 =>
                match skipWs r3 with
                | ']' :: _ => none
                | _ =>
                  match parseValue fuel ('[' :: r3) with
                  | some (.array vs, r4) => some (.array (v :: vs), r4)
                  | _ => none
            | ']' :: r3 => some (.array [v], r3)
            | _ => none
          | none => none
      else if c = lbrace then
        match skipWs rest with
        | c2 :: r =>
          if c2 = rbrace then some (.object [], r)
          else if c2 = '"' then
            match parseStringBody r with
            | some (key, r2) =>
              match skipWs r2 with
              | ':' :: r3 =>
                match parseValue fuel r3 with
                | some (v, r4) =>
                  match skipWs r4 with
                  | c3 :: r5 =>
                    if c3 = rbrace then some (.object [(key, v)], r5)
                    else if c3 = ',' then
                      match skipWs r5 with
                      | '"' :: _ =>
                        match parseValue fuel (lbrace :: r5) with
                        | some (.object fs, r6) => some (.object ((key, v) :: fs), r6)
                        | _ => none
                      | _ => none
                    else none
                  | [] => none
                | none => none
              | _ => none
            | none => none
          else none
        | [] => none
      else
        match c :: rest with
        | 'n' :: 'u' :: 'l' :: 'l' :: r => some (.null, r)
        | 't' :: 'r' :: 'u' :: 'e' :: r => some (.boolean true, r)
        | 'f' :: 'a' :: 'l' :: 's' :: 'e' :: r => some (.boolean false, r)
        | '"' :: r =>
            match parseStringBody r with
            | some (s, r2) => some (.string s, r2)
            | none => none
        | cs =>
            match parseNumber cs with
            | some (lex, r) => some (.number lex, r)
            | none => none

/-- The model of `JSON.parse`: one JSON value, with only whitespace around
it, or failure. -/
def jsonParse (s : String) : Option JsonValue :=
  let cs := s.toList
  match parseValue (cs.length + 1) cs with
  | some (v, rest) => if skipWs rest = [] then some v else none
  | none => none

example : (jsonParse "\x7b\"a\":1\x7d").isSome = true := by rfl
example : (jsonParse "\x7b\"a\":1\x7d\x7d").isSome = false := by rfl
example : (jsonParse " [1, 2.5e3, \"x\\n\", true, null, \x7b\x7d] ").isSome = true := by rfl
example : (jsonParse "\x7b\"a\":1,\x7d").isSome = false := by rfl
example : (jsonParse "[1,]").isSome = false := by rfl
example : (jsonParse "01").isSome = false := by rfl
example : (jsonParse "\"ab\\u0041c\"").isSome = true := by rfl

/-! ### JSON extraction helpers of `tools.ts` -/

/-- The last-occurrence-wins field lookup of a JavaScript object built by
`JSON.parse` (a duplicated key keeps its last value). -/
def jsGetField (fields : List (List Char × JsonValue)) (key : List Char) : Option JsonValue :=
  match fields with
  | [] => none
  | (k, v) :: rest =>
      match jsGetField rest key with
      | some w => some w
      | none => if k = key then some v else none

/-- The characters of the `result` key. -/
def resultKey : List Char := "result".toList

/-- `extractResultText` in `tools.ts`: parse the output as JSON and return
its `result` field when that is a nonempty string, the input unchanged
otherwise. The source guards with `parsed.result && typeof parsed.result
=== 'string'` inside a try/catch: a parse failure throws and is caught; a
parsed `null` makes the property access throw, also caught; any other
non-object parse makes the property access yield `undefined`; and an empty
string fails the truthiness test. All of those fall through to returning
the input. -/
def extractResultText (jsonOutput : String) : String :=
  match jsonParse jsonOutput with
  | some (.object fields) =>
      match jsGetField fields resultKey with
      | some (.string s) => if s = [] then jsonOutput else String.mk s
      | _ => jsonOutput
  | _ => jsonOutput

/-- Index of the first occurrence of a character, as `indexOf` (with `none`
for the -1 of a missing character). -/
def firstIdx (c : Char) : List Char → Option Nat
  | [] => none
  | x :: rest => if x = c then some 0 else (firstIdx c rest).map (· + 1)

/-- Index of the last occurrence of a character, as `lastIndexOf` (with
`none` for -1). -/
def lastIdx (c : Char) (cs : List Char) : Option Nat :=
  match firstIdx c cs.reverse with
  | some k => some (cs.length - 1 - k)
  | none => none

/-- `extractJsonContent` in `tools.ts`: take the substring from the first
opening brace to the last closing brace; return it when it parses as JSON,
`null` when either brace is missing, the first brace does not lie strictly
before the last, or the candidate fails to parse. -/
def extractJsonContent (text : String) : Option String :=
  let cs := text.toList
  match firstIdx lbrace cs, lastIdx rbrace cs with
  | some i, some j =>
      if i ≥ j then none
      else
        let candidate := String.mk ((cs.drop i).take (j + 1 - i))
        match jsonParse candidate with
        | some _ => some candidate
        | none => none
  | _, _ => none

example : extractResultText "\x7b\"result\":\"hello\"\x7d" = "hello" := by rfl
example : extractResultText "plain text" = "plain text" := by rfl
example : extractResultText "\x7b\"result\":42\x7d" = "\x7b\"result\":42\x7d" := by rfl
example : extractResultText "\x7b\"result\":\"\"\x7d" = "\x7b\"result\":\"\"\x7d" := by rfl
example : extractJsonContent "prefix \x7b\"a\":1\x7d suffix" = some "\x7b\"a\":1\x7d" := by rfl
example : extractJsonContent "no braces at all" = none := by rfl
example : extractJsonContent "\x7d\x7b" = none := by rfl
example : extractJsonContent "x\x7b\x7d\x7d" = none := by rfl

/-! ### The JSON-validating retry controller -/

/-- JSON string escaping as `JSON.stringify` performs it on the error
report: backslash, quote, and the control characters. -/
def jsonEscapeChar (c : Char) : List Char :=
  if c = '"' then ['\\', '"']
  else if c = '\\' then ['\\', '\\']
  else if c = '\n' then ['\\', 'n']
  else if c = '\r' then ['\\', 'r']
  else if c = '\t' then ['\\', 't']
  else if c = Char.ofNat 8 then ['\\', 'b']
  else if c = Char.ofNat 12 then ['\\', 'f']
  else if c.toNat < 32 then
    ['\\', 'u', '0', '0',
     (if c.toNat / 16 < 10 then Char.ofNat (48 + c.toNat / 16) else Char.ofNat (87 + c.toNat / 16)),
     (if c.toNat % 16 < 10 then Char.ofNat (48 + c.toNat % 16) else Char.ofNat (87 + c.toNat % 16))]
  else [c]

/-- Escape a whole string for embedding in a JSON string literal. -/
def jsonEscape (s : String) : String :=
  String.mk (s.toList.flatMap jsonEscapeChar)

/-- Join with a line feed, as `Array.prototype.join` with a newline. -/
def joinNewline : List String → String
  | [] => ""
  | [s] => s
  | s :: rest => s ++ "\n" ++ joinNewline rest

/-- The final failure payload of `runJsonWithRetry`:
`JSON.stringify` applied to the object holding the fixed error text, the
attempt budget, and the accumulated error lines joined by newlines. -/
def jsonFailOutput (maxRetries : Int) (errors : List String) : String :=
  "\x7b\"error\":\"Max retries reached\",\"attempts\":" ++ toString maxRetries ++
    ",\"errors\":\"" ++ jsonEscape (joinNewline errors) ++ "\"\x7d"

/-- The attempt loop of `runJsonWithRetry` in `tools.ts`. `execF` gives the
subprocess outcomes: `execF k` is the attempt oracle of the inner
`runWithRetry` call made on outer attempt `k` (that inner call runs with
`maxRetries` forced to 1 and `outputFormat` forced to `json`). `fuel` is
the number of remaining iterations, `(maxRetries - attempt + 1).toNat` at
every call. `errors` accumulates the attempt-tagged error lines. A failed
inner call records its error and continues directly to the next iteration
(the `continue` in the source skips the sleep); a successful inner call
whose output yields no JSON content records a parse failure and sleeps
2000 ms when attempts remain. -/
def runJsonLoop (execF : Int → Int → ClaudeExecutionResult) (options : ClaudeCliOptions) :
    Int → Nat → List String → List RetryEvent × ClaudeExecutionResult
  | _, 0, errors => ([], ⟨false, jsonFailOutput options.maxRetries errors, 1⟩)
  | attempt, fuel + 1, errors =>
      let jsonOptions := { options with outputFormat := "json", maxRetries := 1 }
      let inner := runWithRetry (execF attempt) jsonOptions
      if inner.2.success = false then
        let rest := runJsonLoop execF options (attempt + 1) fuel
          (errors ++ ["[" ++ toString attempt ++ "] AI execution failed: " ++ inner.2.output])
        (inner.1 ++ rest.1, rest.2)
      else
        let resultText := extractResultText inner.2.output
        let jsonContent := match extractJsonContent resultText with
          | some c => some c
          | none => extractJsonContent inner.2.output
        match jsonContent with
        | some c => (inner.1, ⟨true, c, 0⟩)
        | none =>
            let errors2 := errors ++ ["[" ++ toString attempt ++ "] JSON parsing failed"]
            if attempt < options.maxRetries then
              let rest := runJsonLoop execF options (attempt + 1) fuel errors2
              (inner.1 ++ .sleep 2000 :: rest.1, rest.2)
            else
              let rest := runJsonLoop execF options (attempt + 1) fuel errors2
              (inner.1 ++ rest.1, rest.2)

/-- `runJsonWithRetry` in `tools.ts`: the loop from attempt 1 with an empty
error accumulator. -/
def runJsonWithRetry (execF : Int → Int → ClaudeExecutionResult)
    (options : ClaudeCliOptions) : List RetryEvent × ClaudeExecutionResult :=
  runJsonLoop execF options 1 options.maxRetries.toNat []

example :
    runJsonWithRetry (fun _ _ => ⟨true, "\x7b\"result\":\"\x7b\\\"ok\\\":true\x7d\"\x7d", 0⟩)
      ⟨"haiku", 660, 3, none, "json", none, none, none, none, none, none, false⟩ =
      ([.exec 1], ⟨true, "\x7b\"ok\":true\x7d", 0⟩) := by rfl

example :
    runJsonWithRetry (fun _ _ => ⟨false, "boom", 2⟩)
      ⟨"haiku", 660, 2, none, "json", none, none, none, none, none, none, false⟩ =
      ([.exec 1, .exec 1],
       ⟨false,
        "\x7b\"error\":\"Max retries reached\",\"attempts\":2,\"errors\":\"[1] AI execution failed: boom\\n[2] AI execution failed: boom\"\x7d",
        1⟩) := by rfl

/-! ### Model name mapping and CLI argument construction -/

/-- `MODEL_MAP` in `tools.ts`: the alias table, as a key-value list. -/
def MODEL_MAP : List (String × String) :=
  [("haiku", "claude-haiku-4-5-20251001"),
   ("Haiku", "claude-haiku-4-5-20251001"),
   ("sonnet", "claude-sonnet-4-5-20250929"),
   ("Sonnet", "claude-sonnet-4-5-20250929"),
   ("opus", "claude-opus-4-5-20251101"),
   ("Opus", "claude-opus-4-5-20251101"),
   ("Opus 4.5", "claude-opus-4-5-20251101")]

/-- Own-key first-match lookup in a key-value list (the own properties of
the object literal; its keys here are distinct). -/
def lookupMap (m : List (String × String)) (key : String) : Option String :=
  match m with
  | [] => none
  | (k, v) :: rest => if k = key then some v else lookupMap rest key

/-- The member names every plain JavaScript object literal inherits from
`Object.prototype`. Bracket access with one of these names on `MODEL_MAP`
finds the inherited member (a function, or the prototype object for
`__proto__`), which is truthy. -/
def OBJECT_PROTOTYPE_KEYS : List String :=
  ["constructor", "hasOwnProperty", "isPrototypeOf", "propertyIsEnumerable",
   "toLocaleString", "toString", "valueOf", "__proto__",
   "__defineGetter__", "__defineSetter__", "__lookupGetter__", "__lookupSetter__"]

/-- What `MODEL_MAP[model]` can evaluate to: an own string property, a
truthy member inherited from `Object.prototype` (tagged with its name; its
value is a function or object, not a model identifier), or `undefined`. -/
inductive JsProp where
  | str (s : String)
  | inherited (name : String)
  | undefinedVal
deriving DecidableEq, Repr

/-- Bracket property access on the `MODEL_MAP` object literal: an own key
wins; otherwise a member inherited from `Object.prototype`; otherwise
`undefined`. -/
def jsPropAccess (m : List (String × String)) (key : String) : JsProp :=
  match lookupMap m key with
  | some v => .str v
  | none => if key ∈ OBJECT_PROTOTYPE_KEYS then .inherited key else .undefinedVal

/-- JavaScript truthiness of a property-access result: `undefined` is
falsy, an empty string is falsy, and the inherited members (functions, or
the prototype object) are truthy. -/
def jsTruthyProp : JsProp → Bool
  | .str s => s ≠ ""
  | .inherited _ => true
  | .undefinedVal => false

/-- `mapModelName` in `tools.ts`: `const mapped = MODEL_MAP[model]`, then
`if (!mapped)` log a warning and return `MODEL_MAP.haiku`, else return
`mapped`. An own key maps to its identifier; a name that is an inherited
`Object.prototype` member passes the truthiness guard and is returned
as-is (it is not a model identifier); everything else is `undefined` and
falls back to the haiku identifier. -/
def mapModelName (model : String) : JsProp :=
  let mapped := jsPropAccess MODEL_MAP model
  if jsTruthyProp mapped = false then jsPropAccess MODEL_MAP "haiku"
  else mapped

/-- The value `mapModelName` returned, in the argument-list slot the
source pushes it into. For every name the mapping resolves to an
identifier this is that string; an inherited `Object.prototype` member is
not a string at all, rendered here by a tag (no verified property depends
on that slot). -/
def jsArgText : JsProp → String
  | .str s => s
  | .inherited name => "[inherited:" ++ name ++ "]"
  | .undefinedVal => "undefined"

/-- `DEFAULT_DISALLOWED_TOOLS` in `tools.ts`: the seven-entry deny-list
always merged into the disallow set. -/
def DEFAULT_DISALLOWED_TOOLS : List String :=
  ["Bash(npm run build:*)",
   "Bash(npm run dev:*)",
   "Bash(npm test:*)",
   "Bash(npm run test:run:*)",
   "Bash(npm run lint:*)",
   "Bash(npx tsc -b:*)",
   "Bash(npx eslint .:*)"]

/-- Deduplication keeping the first occurrence of each element, in order:
the iteration order of a JavaScript `Set` built from a list. `seen` holds
the elements already emitted. -/
def dedupeKeepFirst (seen : List String) : List String → List String
  | [] => []
  | x :: xs =>
      if x ∈ seen then dedupeKeepFirst seen xs
      else x :: dedupeKeepFirst (seen ++ [x]) xs

/-- Iterating a JavaScript `Set` constructed from a list. -/
def jsSetOfList (l : List String) : List String := dedupeKeepFirst [] l

/-- JavaScript `a || d` on an optional string: `d` unless the string is
present and nonempty. -/
def jsOrDefault (o : Option String) (d : String) : String :=
  match o with
  | some s => if s = "" then d else s
  | none => d

/-- JavaScript `s || d` on a string: `d` when `s` is empty. -/
def jsOrStr (s d : String) : String := if s = "" then d else s

/-- Truthiness of an optional string (`if (options.x)` in the source). -/
def jsTruthyStr (o : Option String) : Bool :=
  match o with
  | some s => s ≠ ""
  | none => false

/-- `buildClaudeArgs` in `tools.ts`: the fixed head, the output format with
its default, then each optional flag group in source order; the disallowed
tools are the `Set`-merge of the defaults with the caller-supplied list. -/
def buildClaudeArgs (options : ClaudeCliOptions) : List String :=
  ["--model", jsArgText (mapModelName options.model), "--dangerously-skip-permissions", "-p"] ++
  ["--output-format", jsOrStr options.outputFormat "json"] ++
  (match options.maxTurns with
   | some n => ["--max-turns", toString n]
   | none => []) ++
  (if jsTruthyStr options.jsonSchema then ["--json-schema", options.jsonSchema.getD ""] else []) ++
  (if jsTruthyStr options.systemPrompt then ["--system-prompt", options.systemPrompt.getD ""] else []) ++
  (if jsTruthyStr options.appendSystemPrompt then
    ["--append-system-prompt", options.appendSystemPrompt.getD ""] else []) ++
  (match options.allowedTools with
   | some l => l.flatMap (fun t => ["--allowedTools", t])
   | none => []) ++
  (jsSetOfList (DEFAULT_DISALLOWED_TOOLS ++ options.disallowedTools.getD [])).flatMap
    (fun t => ["--disallowedTools", t]) ++
  (match options.addDirs with
   | some l => l.flatMap (fun t => ["--add-dir", t])
   | none => []) ++
  (if options.verbose then ["--verbose"] else [])

/-! ### The tool-call dispatcher of `server.ts` -/

/-- The `name` fields of the five entries of `TOOLS` in `tools.ts`;
`VALID_TOOL_NAMES` is the `Set` of these. -/
def TOOL_NAMES : List String :=
  ["claude_generate", "claude_edit", "claude_refactor",
   "claude_generate_json", "claude_edit_json"]

/-- Raw `tools/call` arguments (`ClaudeToolArguments` in `types.ts`). -/
structure ClaudeToolArguments where
  prompt : String
  model : Option String
  timeout : Option Int
  maxRetries : Option Int
  maxTurns : Option Int
  outputFormat : Option String
  jsonSchema : Option String
  systemPrompt : Option String
  appendSystemPrompt : Option String
  allowedTools : Option (List String)
  disallowedTools : Option (List String)
  addDirs : Option (List String)
  verbose : Option Bool
deriving DecidableEq, Repr

/-- `parseToolArguments` in `server.ts`: defaults applied with `||` on the
strings (so an empty string also defaults) and `??` on the rest. -/
def parseToolArguments (args : ClaudeToolArguments) : ClaudeCliOptions :=
  { model := jsOrDefault args.model "haiku"
    timeout := args.timeout.getD 660
    maxRetries := args.maxRetries.getD 3
    maxTurns := args.maxTurns
    outputFormat := jsOrDefault args.outputFormat "json"
    jsonSchema := args.jsonSchema
    systemPrompt := args.systemPrompt
    appendSystemPrompt := args.appendSystemPrompt
    allowedTools := args.allowedTools
    disallowedTools := args.disallowedTools
    addDirs := args.addDirs
    verbose := args.verbose.getD false }

/-- A JSON-RPC request id: a number or a string. -/
inductive RpcId where
  | num (n : Int)
  | str (s : String)
deriving DecidableEq, Repr

/-- A JSON-RPC error object. -/
structure JsonRpcError where
  code : Int
  message : String
  data : Option String
deriving DecidableEq, Repr

/-- The response a `tools/call` handler sends: `sendResult` with one text
content block, or `sendError`. -/
inductive ToolCallResponse where
  | ok (id : RpcId) (text : String)
  | err (id : RpcId) (e : JsonRpcError)
deriving DecidableEq, Repr

/-- `handleToolCall` in `server.ts`. `exec` and `execF` are the subprocess
outcome oracles threaded to the two retry controllers (each attempt being
one `executeClaudeCli` invocation). An unknown tool name is rejected with
error -32601 before any options are parsed and before any retry loop runs;
the three plain tools answer through `runWithRetry` and
`extractResultText`; the two JSON tools answer through `runJsonWithRetry`.
Returned alongside the response is the trace of subprocess executions and
sleeps the call performed. -/
def handleToolCall (exec : Int → ClaudeExecutionResult)
    (execF : Int → Int → ClaudeExecutionResult) (id : RpcId) (name : String)
    (args : ClaudeToolArguments) : List RetryEvent × ToolCallResponse :=
  if name ∈ TOOL_NAMES then
    let options := parseToolArguments args
    if name = "claude_generate" || name = "claude_edit" || name = "claude_refactor" then
      let r := runWithRetry exec options
      if r.2.success = false then
        (r.1, .err id ⟨-32603, "Claude CLI error", some r.2.output⟩)
      else
        (r.1, .ok id (extractResultText r.2.output))
    else
      let r := runJsonWithRetry execF options
      if r.2.success = false then
        (r.1, .err id ⟨-32603, "JSON validation error", some r.2.output⟩)
      else
        (r.1, .ok id r.2.output)
  else
    ([], .err id ⟨-32601, "Unknown tool: " ++ name, none⟩)

/-! ### The serialized output queue of `server.ts`

`atomicOutput` appends each response line to a promise chain; the chained
promises resolve in order, each performing one whole
`process.stdout.write(data + "\n")`. The model: a state holding the queue
of pending whole-line writes and the list of writes already performed, an
`enqueue` event for one `atomicOutput` call, and a `writeStep` event for
the completion of the write at the head of the chain. The protocol output
stream is the concatenation of the performed writes. -/

/-- One event at the output queue: an `atomicOutput` call enqueueing a
response, or the completion of the pending write at the head of the
chain. -/
inductive OutEvent where
  | enqueue (data : String)
  | writeStep

/-- The output queue state: pending whole-line writes in chain order, and
the writes already performed, oldest first. -/
structure OutQueueState where
  pending : List String
  written : List String
deriving DecidableEq, Repr

/-- One step of the output queue. -/
def outStep (s : OutQueueState) : OutEvent → OutQueueState
  | .enqueue d => { s with pending := s.pending ++ [d ++ "\n"] }
  | .writeStep =>
      match s.pending with
      | [] => s
      | w :: rest => ⟨rest, s.written ++ [w]⟩

/-- Run the output queue over an event sequence. -/
def runOut (evts : List OutEvent) (s : OutQueueState) : OutQueueState :=
  match evts with
  | [] => s
  | e :: rest => runOut rest (outStep s e)

/-- The responses enqueued by an event sequence, in order. -/
def enqueuedOf : List OutEvent → List String
  | [] => []
  | .enqueue d :: rest => d :: enqueuedOf rest
  | .writeStep :: rest => enqueuedOf rest

/-- The bytes that reached the protocol output stream. -/
def outStream (s : OutQueueState) : String := String.join s.written

/-! ### Theorems -/

/-- C4: the subprocess runner outcome is determined by how the process
ended: forced termination by the timeout timer gives the
`Command timeout` outcome with exit code 124; a normal exit with code 0
succeeds with stdout; a normal exit with nonzero code `n` fails with code
`n` and output stderr, else stdout, else `Exit code: n`; a failure to
start gives the `Spawn error` outcome with exit code 1. -/
theorem executeClaudeCli_spec :
    (executeClaudeCli .timedOut = ⟨false, "Command timeout", 124⟩) ∧
    (∀ out err : String, executeClaudeCli (.exited (some 0) out err) = ⟨true, out, 0⟩) ∧
    (∀ (n : Int) (out err : String), n ≠ 0 →
      executeClaudeCli (.exited (some n) out err) =
        ⟨false,
         if err ≠ "" then err else if out ≠ "" then out else "Exit code: " ++ toString n,
         n⟩) ∧
    (∀ msg : String, executeClaudeCli (.spawnFailed msg) = ⟨false, "Spawn error: " ++ msg, 1⟩) := by
  refine ⟨rfl, fun out err => by simp [executeClaudeCli], fun n out err hn => ?_, fun msg => rfl⟩
  simp [executeClaudeCli, jsCodeText, hn]

/-- C4 witness: the spec applied to a nonzero exit with empty streams. -/
theorem executeClaudeCli_spec_witness :
    executeClaudeCli (.exited (some 2) "" "") = ⟨false, "Exit code: " ++ toString (2 : Int), 2⟩ := by
  have h := executeClaudeCli_spec.2.2.1 2 "" "" (by decide)
  simpa using h

/-- Keys absent from a key-value list look up to nothing. -/
theorem lookupMap_eq_none {m : List (String × String)} {key : String}
    (h : key ∉ m.map Prod.fst) : lookupMap m key = none := by
  induction m with
  | nil => rfl
  | cons p rest ih =>
      simp only [List.map_cons, List.mem_cons] at h
      push_neg at h
      have hne : ¬p.1 = key := fun he => h.1 he.symm
      simp [lookupMap, hne, ih h.2]

/-- C7 counterexample: the all-caps family name `SONNET` is not a key of
`MODEL_MAP`, so it falls back to the haiku identifier instead of mapping
to the sonnet identifier — the mapping is not case-insensitive over every
casing. -/
theorem mapModelName_uppercase_counterexample :
    mapModelName "SONNET" = .str "claude-haiku-4-5-20251001" ∧
    mapModelName "SONNET" ≠ .str "claude-sonnet-4-5-20250929" := by
  exact ⟨by rfl, by decide⟩

/-- C7 (amended): the lowercase and capitalized spellings of the three
family names, and the compound name `Opus 4.5`, map to their fixed
concrete identifiers. A name that is neither a `MODEL_MAP` key nor an
inherited `Object.prototype` member name maps to the default haiku
identifier rather than failing; a name that is an inherited
`Object.prototype` member name (such as `toString`) passes the truthiness
guard and is returned as that inherited non-identifier member instead of
falling back. -/
theorem mapModelName_spec :
    (mapModelName "haiku" = .str "claude-haiku-4-5-20251001") ∧
    (mapModelName "Haiku" = .str "claude-haiku-4-5-20251001") ∧
    (mapModelName "sonnet" = .str "claude-sonnet-4-5-20250929") ∧
    (mapModelName "Sonnet" = .str "claude-sonnet-4-5-20250929") ∧
    (mapModelName "opus" = .str "claude-opus-4-5-20251101") ∧
    (mapModelName "Opus" = .str "claude-opus-4-5-20251101") ∧
    (mapModelName "Opus 4.5" = .str "claude-opus-4-5-20251101") ∧
    (∀ name : String, name ∉ MODEL_MAP.map Prod.fst → name ∉ OBJECT_PROTOTYPE_KEYS →
      mapModelName name = .str "claude-haiku-4-5-20251001") ∧
    (∀ name ∈ OBJECT_PROTOTYPE_KEYS, mapModelName name = .inherited name) := by
  refine ⟨rfl, rfl, rfl, rfl, rfl, rfl, rfl, fun name h1 h2 => ?_, by decide⟩
  simp [mapModelName, jsPropAccess, jsTruthyProp, lookupMap_eq_none h1, h2]
  rfl

/-- C7 witness: an unrecognized plain name falls back to the haiku
identifier. -/
theorem mapModelName_spec_witness :
    mapModelName "gpt-4" = .str "claude-haiku-4-5-20251001" :=
  mapModelName_spec.2.2.2.2.2.2.2.1 "gpt-4" (by decide) (by decide)

/-- C8: a `tools/call` whose tool name lies outside the known set answers
with error -32601 and the `Unknown tool` message naming the tool, performs
no subprocess execution and no sleep, and enters no retry loop. -/
theorem handleToolCall_unknown_tool (exec : Int → ClaudeExecutionResult)
    (execF : Int → Int → ClaudeExecutionResult) (id : RpcId) (name : String)
    (args : ClaudeToolArguments) (h : name ∉ TOOL_NAMES) :
    handleToolCall exec execF id name args =
      ([], .err id ⟨-32601, "Unknown tool: " ++ name, none⟩) := by
  simp [handleToolCall, h]

/-- Concrete arguments for the dispatcher witnesses. -/
def argsW : ClaudeToolArguments :=
  ⟨"say hi", none, none, none, none, none, none, none, none, none, none, none, none⟩

/-- C8 witness: a concrete unknown tool name. -/
theorem handleToolCall_unknown_tool_witness :
    handleToolCall (fun _ => ⟨true, "ok", 0⟩) (fun _ _ => ⟨true, "ok", 0⟩)
      (.num 7) "claude_bogus" argsW =
      ([], .err (.num 7) ⟨-32601, "Unknown tool: claude_bogus", none⟩) := by
  rw [handleToolCall_unknown_tool _ _ _ _ _ (by decide)]
  rfl

/-- C10: a `maxRetries` of zero or less makes `runWithRetry` perform no
subprocess execution and no wait, returning the synthesized max-retries
outcome naming the given `maxRetries` value. -/
theorem runWithRetry_nonpositive (exec : Int → ClaudeExecutionResult)
    (options : ClaudeCliOptions) (h : options.maxRetries ≤ 0) :
    runWithRetry exec options =
      ([], ⟨false, "Max retries reached after " ++ toString options.maxRetries ++ " attempts", 1⟩) := by
  have h0 : options.maxRetries.toNat = 0 := Int.toNat_of_nonpos h
  simp [runWithRetry, h0, runWithRetryLoop, maxRetriesResult]

/-- Concrete options with a zero retry budget. -/
def optsW10 : ClaudeCliOptions :=
  ⟨"haiku", 660, 0, none, "json", none, none, none, none, none, none, false⟩

/-- C10 witness: zero retries runs nothing and names the budget. -/
theorem runWithRetry_nonpositive_witness :
    runWithRetry (fun _ => ⟨true, "ok", 0⟩) optsW10 =
      ([], ⟨false, "Max retries reached after 0 attempts", 1⟩) := by
  rw [runWithRetry_nonpositive _ _ (by decide)]
  rfl

/-- The attempt loop returns the outcome of the first successful attempt:
running from attempt `a` with the matching fuel, if every attempt before
`k` fails and attempt `k` succeeds, the loop returns the outcome of
attempt `k`. -/
theorem runWithRetryLoop_first_success (exec : Int → ClaudeExecutionResult) (N k : Int)
    (hk : (exec k).success = true) :
    ∀ (fuel : Nat) (a : Int), fuel = (N + 1 - a).toNat → a ≤ k → k ≤ N →
      (∀ j, a ≤ j → j < k → (exec j).success = false) →
      (runWithRetryLoop exec N a fuel).2 = exec k ∧
        (runWithRetryLoop exec N a fuel).1.getLast? = some (.exec k) := by
  intro fuel
  induction fuel with
  | zero =>
      intro a hfuel hak hkN _
      exfalso
      omega
  | succ f ih =>
      intro a hfuel hak hkN hfail
      rcases eq_or_lt_of_le hak with hae | hlt
      · subst hae
        simp [runWithRetryLoop, hk]
      · have hfa : (exec a).success = false := hfail a le_rfl hlt
        have haN : a < N := lt_of_lt_of_le hlt hkN
        obtain ⟨ih2, ih1⟩ := ih (a + 1) (by omega) (by omega) hkN
          (fun j hj1 hj2 => hfail j (by omega) hj2)
        rcases htr : (runWithRetryLoop exec N (a + 1) f).1 with _ | ⟨e, es⟩
        · rw [htr] at ih1
          simp at ih1
        · rw [htr] at ih1
          by_cases h124 : (exec a).exitCode = 124 ∨ (exec a).exitCode = 137
          · simp [runWithRetryLoop, hfa, h124, haN, ih2, htr, List.getLast?_cons_cons, ih1]
          · simp [runWithRetryLoop, hfa, h124, haN, ih2, htr, List.getLast?_cons_cons, ih1]

/-- The attempt loop on all-failing attempts: running from attempt `a`
with the matching fuel, if every attempt through `N` fails, the result is
the synthesized max-retries outcome when the last attempt failed with a
timeout exit code, and the last attempt outcome itself otherwise. -/
theorem runWithRetryLoop_all_fail (exec : Int → ClaudeExecutionResult) (N : Int) :
    ∀ (fuel : Nat) (a : Int), fuel = (N + 1 - a).toNat → a ≤ N →
      (∀ j, a ≤ j → j ≤ N → (exec j).success = false) →
      (runWithRetryLoop exec N a fuel).2 =
        (if (exec N).exitCode = 124 ∨ (exec N).exitCode = 137 then maxRetriesResult N
         else exec N) ∧
        (runWithRetryLoop exec N a fuel).1.getLast? = some (.exec N) := by
  intro fuel
  induction fuel with
  | zero =>
      intro a hfuel haN _
      exfalso
      omega
  | succ f ih =>
      intro a hfuel haN hfail
      have hfa : (exec a).success = false := hfail a le_rfl haN
      rcases lt_or_eq_of_le haN with hlt | heq
      · obtain ⟨ih2, ih1⟩ := ih (a + 1) (by omega) (by omega)
          (fun j hj1 hj2 => hfail j (by omega) hj2)
        rcases htr : (runWithRetryLoop exec N (a + 1) f).1 with _ | ⟨e, es⟩
        · rw [htr] at ih1
          simp at ih1
        · rw [htr] at ih1
          by_cases h124 : (exec a).exitCode = 124 ∨ (exec a).exitCode = 137
          · simp [runWithRetryLoop, hfa, h124, hlt, ih2, htr, List.getLast?_cons_cons, ih1]
          · simp [runWithRetryLoop, hfa, h124, hlt, ih2, htr, List.getLast?_cons_cons, ih1]
      · subst heq
        have hf0 : f = 0 := by omega
        subst hf0
        by_cases h124 : (exec a).exitCode = 124 ∨ (exec a).exitCode = 137
        · simp [runWithRetryLoop, hfa, h124, maxRetriesResult]
        · simp [runWithRetryLoop, hfa, h124]

/-- C1: with a retry budget of at least one, `runWithRetry` returns the
outcome of the first successful attempt immediately (the trace ends at
that execution, with no wait or further attempt after it); when every
attempt fails and the final attempt has a non-timeout exit code, it
returns exactly that final attempt outcome immediately (the trace ends at
the final execution, with no wait after it); and when every attempt fails
with the final attempt timing out (exit code 124 or 137), it returns the
synthesized `Max retries reached after N attempts` outcome with exit
code 1. -/
theorem runWithRetry_spec (exec : Int → ClaudeExecutionResult)
    (options : ClaudeCliOptions) (hN : 1 ≤ options.maxRetries) :
    (∀ k, 1 ≤ k → k ≤ options.maxRetries → (exec k).success = true →
      (∀ j, 1 ≤ j → j < k → (exec j).success = false) →
      (runWithRetry exec options).2 = exec k ∧
        (runWithRetry exec options).1.getLast? = some (.exec k)) ∧
    ((∀ j, 1 ≤ j → j ≤ options.maxRetries → (exec j).success = false) →
      ¬((exec options.maxRetries).exitCode = 124 ∨
        (exec options.maxRetries).exitCode = 137) →
      (runWithRetry exec options).2 = exec options.maxRetries ∧
        (runWithRetry exec options).1.getLast? = some (.exec options.maxRetries)) ∧
    ((∀ j, 1 ≤ j → j ≤ options.maxRetries → (exec j).success = false) →
      ((exec options.maxRetries).exitCode = 124 ∨
        (exec options.maxRetries).exitCode = 137) →
      (runWithRetry exec options).2 =
        ⟨false,
         "Max retries reached after " ++ toString options.maxRetries ++ " attempts",
         1⟩) := by
  have hfuel : options.maxRetries.toNat = (options.maxRetries + 1 - 1).toNat := by omega
  refine ⟨fun k hk1 hkN hks hprev => ?_, fun hall hnt => ?_, fun hall ht => ?_⟩
  · rw [runWithRetry, hfuel]
    exact runWithRetryLoop_first_success exec options.maxRetries k hks _ 1 rfl hk1 hkN
      (fun j hj1 hj2 => hprev j hj1 hj2)
  · obtain ⟨h2, h1⟩ := runWithRetryLoop_all_fail exec options.maxRetries _ 1 rfl hN
      (fun j hj1 hj2 => hall j hj1 hj2)
    rw [runWithRetry, hfuel]
    rw [h2]
    exact ⟨by simp [hnt], h1⟩
  · obtain ⟨h2, _⟩ := runWithRetryLoop_all_fail exec options.maxRetries _ 1 rfl hN
      (fun j hj1 hj2 => hall j hj1 hj2)
    rw [runWithRetry, hfuel, h2]
    simp [ht, maxRetriesResult]

/-- Concrete oracle for the C1 witness: attempt 1 fails with exit code 2,
attempt 2 succeeds. -/
def execW1 : Int → ClaudeExecutionResult :=
  fun a => if a = 1 then ⟨false, "transient", 2⟩ else ⟨true, "ok", 0⟩

/-- Concrete options for the C1 witness. -/
def optsW1 : ClaudeCliOptions :=
  ⟨"haiku", 660, 2, none, "json", none, none, none, none, none, none, false⟩

/-- C1 witness: the spec applied with the first success on attempt 2. -/
theorem runWithRetry_spec_witness :
    (runWithRetry execW1 optsW1).2 = execW1 2 ∧
      (runWithRetry execW1 optsW1).1.getLast? = some (.exec 2) :=
  (runWithRetry_spec execW1 optsW1 (by decide)).1 2 (by decide) (by decide) (by decide)
    (fun j h1 h2 => by
      have hj : j = 1 := by omega
      subst hj
      decide)

/-- A character without an occurrence has no first index. -/
theorem firstIdx_eq_none {c : Char} : ∀ {cs : List Char}, c ∉ cs → firstIdx c cs = none := by
  intro cs
  induction cs with
  | nil => intro _; rfl
  | cons x rest ih =>
      intro h
      simp only [List.mem_cons] at h
      push_neg at h
      have hne : ¬x = c := fun he => h.1 he.symm
      simp [firstIdx, hne, ih h.2]

/-- A character without an occurrence has no last index. -/
theorem lastIdx_eq_none {c : Char} {cs : List Char} (h : c ∉ cs) : lastIdx c cs = none := by
  have : c ∉ cs.reverse := by simpa using h
  simp [lastIdx, firstIdx_eq_none this]

/-- C5: `extractJsonContent` returns the substring from the first opening
brace to the last closing brace exactly when that substring parses as
JSON, and nothing otherwise: nothing when no opening brace exists, when no
closing brace exists, or when the first opening brace does not lie
strictly before the last closing brace; the brace-to-brace candidate when
it parses, nothing when it does not. In particular, on
`prefix {"a":1} suffix` it returns exactly `{"a":1}`, and on the
unbalanced `x{}}` it returns nothing. -/
theorem extractJsonContent_spec :
    (∀ text : String, lbrace ∉ text.toList → extractJsonContent text = none) ∧
    (∀ text : String, rbrace ∉ text.toList → extractJsonContent text = none) ∧
    (∀ (text : String) (i j : Nat), firstIdx lbrace text.toList = some i →
      lastIdx rbrace text.toList = some j → i ≥ j → extractJsonContent text = none) ∧
    (∀ (text : String) (i j : Nat), firstIdx lbrace text.toList = some i →
      lastIdx rbrace text.toList = some j → i < j →
      extractJsonContent text =
        (if (jsonParse (String.mk ((text.toList.drop i).take (j + 1 - i)))).isSome then
          some (String.mk ((text.toList.drop i).take (j + 1 - i)))
        else none)) ∧
    (extractJsonContent "prefix \x7b\"a\":1\x7d suffix" = some "\x7b\"a\":1\x7d") ∧
    (extractJsonContent "x\x7b\x7d\x7d" = none) := by
  refine ⟨fun text h => ?_, fun text h => ?_, fun text i j hi hj hge => ?_,
    fun text i j hi hj hlt => ?_, by rfl, by rfl⟩
  · have h1 : firstIdx lbrace text.data = none := firstIdx_eq_none h
    simp [extractJsonContent, h1]
  · have h1 : lastIdx rbrace text.data = none := lastIdx_eq_none h
    simp [extractJsonContent, h1]
  · have hi' : firstIdx lbrace text.data = some i := hi
    have hj' : lastIdx rbrace text.data = some j := hj
    simp [extractJsonContent, hi', hj', hge]
  · have hi' : firstIdx lbrace text.data = some i := hi
    have hj' : lastIdx rbrace text.data = some j := hj
    have hnge : ¬j ≤ i := by omega
    rcases hp : jsonParse (String.mk ((text.data.drop i).take (j + 1 - i))) with _ | v
    · have hp' : jsonParse { data := List.take (j + 1 - i) (List.drop i text.data) } = none := hp
      simp [extractJsonContent, hi', hj', hnge, hp', String.mk]
    · have hp' : jsonParse { data := List.take (j + 1 - i) (List.drop i text.data) } =
        some v := hp
      simp [extractJsonContent, hi', hj', hnge, hp', String.mk]

/-- C5 witness: a text without braces extracts nothing. -/
theorem extractJsonContent_spec_witness :
    extractJsonContent "no json here" = none :=
  extractJsonContent_spec.1 "no json here" (by decide)

/-- C6 counterexample: `\x7b"result":""\x7d` parses as JSON with a
string-typed `result` field, yet `extractResultText` returns the input
unchanged instead of the empty field value, because the empty string fails
the truthiness test `parsed.result &&` in the source. -/
theorem extractResultText_empty_counterexample :
    jsonParse "\x7b\"result\":\"\"\x7d" = some (.object [(resultKey, .string [])]) ∧
    extractResultText "\x7b\"result\":\"\"\x7d" = "\x7b\"result\":\"\"\x7d" ∧
    "\x7b\"result\":\"\"\x7d" ≠ "" := by
  exact ⟨by rfl, by rfl, by decide⟩

/-- C6 (amended): `extractResultText` returns the value of the `result`
field whenever the input parses as a JSON object whose `result` field is a
nonempty string, and returns the input unchanged in every other case: an
empty-string `result` field, a `result` field that is not a string or is
absent, a non-object parse, or a parse failure. Being a total function of
the input, it never raises. -/
theorem extractResultText_spec :
    (∀ (s : String) (fields : List (List Char × JsonValue)) (v : List Char),
      jsonParse s = some (.object fields) → jsGetField fields resultKey = some (.string v) →
      v ≠ [] → extractResultText s = String.mk v) ∧
    (∀ (s : String) (fields : List (List Char × JsonValue)) (v : List Char),
      jsonParse s = some (.object fields) → jsGetField fields resultKey = some (.string v) →
      v = [] → extractResultText s = s) ∧
    (∀ (s : String) (fields : List (List Char × JsonValue)),
      jsonParse s = some (.object fields) →
      (∀ v, jsGetField fields resultKey ≠ some (.string v)) → extractResultText s = s) ∧
    (∀ s : String, (∀ fields, jsonParse s ≠ some (.object fields)) →
      extractResultText s = s) := by
  refine ⟨fun s fields v hp hf hv => ?_, fun s fields v hp hf hv => ?_,
    fun s fields hp hf => ?_, fun s hp => ?_⟩
  · simp [extractResultText, hp, hf, hv]
  · simp [extractResultText, hp, hf, hv]
  · rcases hg : jsGetField fields resultKey with _ | w
    · simp [extractResultText, hp, hg]
    · cases w with
      | string v => exact absurd hg (hf v)
      | null => simp [extractResultText, hp, hg]
      | boolean b => simp [extractResultText, hp, hg]
      | number l => simp [extractResultText, hp, hg]
      | array es => simp [extractResultText, hp, hg]
      | object fs => simp [extractResultText, hp, hg]
  · rcases hq : jsonParse s with _ | v
    · simp [extractResultText, hq]
    · cases v with
      | object fields => exact absurd hq (hp fields)
      | null => simp [extractResultText, hq]
      | boolean b => simp [extractResultText, hq]
      | number l => simp [extractResultText, hq]
      | string t => simp [extractResultText, hq]
      | array es => simp [extractResultText, hq]

/-- C6 witness: the round-trip example, a nonempty string `result`. -/
theorem extractResultText_spec_witness :
    extractResultText "\x7b\"result\":\"hello\"\x7d" = "hello" :=
  extractResultText_spec.1 "\x7b\"result\":\"hello\"\x7d"
    [("result".toList, .string "hello".toList)] "hello".toList (by rfl) (by rfl) (by decide)

/-- Subprocess oracle for C2: every attempt fails with exit code 2. -/
def execFW2 : Int → Int → ClaudeExecutionResult := fun _ _ => ⟨false, "boom", 2⟩

/-- Options for C2: a retry budget of 2. -/
def optsW2 : ClaudeCliOptions :=
  ⟨"haiku", 660, 2, none, "json", none, none, none, none, none, none, false⟩

/-- C2 counterexample: with a budget of 2, the inner plain-retry call of
attempt 1 fails while an attempt remains, yet the whole run performs no
sleep at all: its trace is exactly the two inner executions back to back.
The `continue` in the source skips the 2000 ms wait on the inner-failure
path. -/
theorem runJsonWithRetry_no_wait_counterexample :
    (runWithRetry (execFW2 1) { optsW2 with outputFormat := "json", maxRetries := 1 }).2.success
      = false ∧
    (1 : Int) < optsW2.maxRetries ∧
    (runJsonWithRetry execFW2 optsW2).1 = [.exec 1, .exec 1] ∧
    RetryEvent.sleep 2000 ∉ (runJsonWithRetry execFW2 optsW2).1 := by
  refine ⟨by rfl, by decide, by rfl, by decide⟩

/-- C2 (amended): whenever the inner plain-retry call fails on an attempt,
the controller records the attempt-tagged error message
`[k] AI execution failed: <output>` and continues directly to the next
attempt with no wait: the events of the remaining attempts follow the
inner events immediately, with no sleep between them. (The 2000 ms wait
of this controller happens only on the JSON-parse-failure path of a
successful inner call.) -/
theorem runJsonLoop_inner_failure (execF : Int → Int → ClaudeExecutionResult)
    (options : ClaudeCliOptions) (attempt : Int) (fuel : Nat) (errors : List String)
    (h : (runWithRetry (execF attempt)
      { options with outputFormat := "json", maxRetries := 1 }).2.success = false) :
    runJsonLoop execF options attempt (fuel + 1) errors =
      ((runWithRetry (execF attempt) { options with outputFormat := "json", maxRetries := 1 }).1
        ++ (runJsonLoop execF options (attempt + 1) fuel
          (errors ++ ["[" ++ toString attempt ++ "] AI execution failed: " ++
            (runWithRetry (execF attempt)
              { options with outputFormat := "json", maxRetries := 1 }).2.output])).1,
       (runJsonLoop execF options (attempt + 1) fuel
          (errors ++ ["[" ++ toString attempt ++ "] AI execution failed: " ++
            (runWithRetry (execF attempt)
              { options with outputFormat := "json", maxRetries := 1 }).2.output])).2) := by
  simp [runJsonLoop, h]

/-- C2 witness: the amended behavior at attempt 1 of the concrete
all-failing run. -/
theorem runJsonLoop_inner_failure_witness :
    runJsonLoop execFW2 optsW2 1 (0 + 1) [] =
      ((runWithRetry (execFW2 1) { optsW2 with outputFormat := "json", maxRetries := 1 }).1
        ++ (runJsonLoop execFW2 optsW2 (1 + 1) 0
          ([] ++ ["[" ++ toString (1 : Int) ++ "] AI execution failed: " ++
            (runWithRetry (execFW2 1)
              { optsW2 with outputFormat := "json", maxRetries := 1 }).2.output])).1,
       (runJsonLoop execFW2 optsW2 (1 + 1) 0
          ([] ++ ["[" ++ toString (1 : Int) ++ "] AI execution failed: " ++
            (runWithRetry (execFW2 1)
              { optsW2 with outputFormat := "json", maxRetries := 1 }).2.output])).2) :=
  runJsonLoop_inner_failure execFW2 optsW2 1 0 [] (by rfl)

/-- Elements reach the deduplicated list: anything in the input that was
not already seen appears in the output. -/
theorem dedupeKeepFirst_mem :
    ∀ (l seen : List String) (x : String), x ∈ l → x ∉ seen →
      x ∈ dedupeKeepFirst seen l := by
  intro l
  induction l with
  | nil => intro seen x hx _; exact absurd hx (List.not_mem_nil x)
  | cons y ys ih =>
      intro seen x hx hnseen
      by_cases hy : y ∈ seen
      · have hxy : x ∈ ys := by
          rcases List.mem_cons.mp hx with he | hm
          · exact absurd (he ▸ hy) hnseen
          · exact hm
        simpa [dedupeKeepFirst, hy] using ih seen x hxy hnseen
      · rcases List.mem_cons.mp hx with he | hm
        · simp [dedupeKeepFirst, hy, he]
        · by_cases hxy : x = y
          · simp [dedupeKeepFirst, hy, hxy]
          · have : x ∉ seen ++ [y] := by simp [hnseen, hxy]
            simp [dedupeKeepFirst, hy]
            exact Or.inr (ih (seen ++ [y]) x hm this)

/-- The deduplicated list has no duplicates and avoids the seen set. -/
theorem dedupeKeepFirst_nodup :
    ∀ (l seen : List String), (dedupeKeepFirst seen l).Nodup ∧
      ∀ x ∈ dedupeKeepFirst seen l, x ∉ seen := by
  intro l
  induction l with
  | nil => intro seen; simp [dedupeKeepFirst]
  | cons y ys ih =>
      intro seen
      by_cases hy : y ∈ seen
      · simpa [dedupeKeepFirst, hy] using ih seen
      · obtain ⟨hnd, hnin⟩ := ih (seen ++ [y])
        have hstep : dedupeKeepFirst seen (y :: ys) = y :: dedupeKeepFirst (seen ++ [y]) ys := by
          simp [dedupeKeepFirst, hy]
        rw [hstep]
        refine ⟨List.nodup_cons.mpr ⟨fun hmem => ?_, hnd⟩, ?_⟩
        · have := hnin y hmem
          simp at this
        · intro x hx
          rcases List.mem_cons.mp hx with he | hm
          · exact he ▸ hy
          · intro hxs
            exact (hnin x hm) (by simp [hxs])

/-- C9: for every options value, the argument list carries one
`--disallowedTools` flag for each member of the `Set`-merge of the seven
default deny-list entries with the caller-supplied disallowed tools: the
merge keeps every default entry and every caller entry, duplicates
nothing, and its flag pairs appear contiguously inside the built argument
list. -/
theorem buildClaudeArgs_disallowed_spec (options : ClaudeCliOptions) :
    (∃ pre post : List String,
      buildClaudeArgs options =
        pre ++ (jsSetOfList (DEFAULT_DISALLOWED_TOOLS ++
          options.disallowedTools.getD [])).flatMap (fun t => ["--disallowedTools", t]) ++ post) ∧
    (∀ t ∈ DEFAULT_DISALLOWED_TOOLS,
      t ∈ jsSetOfList (DEFAULT_DISALLOWED_TOOLS ++ options.disallowedTools.getD [])) ∧
    (∀ t ∈ options.disallowedTools.getD [],
      t ∈ jsSetOfList (DEFAULT_DISALLOWED_TOOLS ++ options.disallowedTools.getD [])) ∧
    (jsSetOfList (DEFAULT_DISALLOWED_TOOLS ++ options.disallowedTools.getD [])).Nodup := by
  refine ⟨?_, fun t ht => ?_, fun t ht => ?_, (dedupeKeepFirst_nodup _ []).1⟩
  · refine ⟨["--model", jsArgText (mapModelName options.model),
      "--dangerously-skip-permissions", "-p"] ++
      ["--output-format", jsOrStr options.outputFormat "json"] ++
      (match options.maxTurns with
       | some n => ["--max-turns", toString n]
       | none => []) ++
      (if jsTruthyStr options.jsonSchema then ["--json-schema", options.jsonSchema.getD ""]
       else []) ++
      (if jsTruthyStr options.systemPrompt then
        ["--system-prompt", options.systemPrompt.getD ""] else []) ++
      (if jsTruthyStr options.appendSystemPrompt then
        ["--append-system-prompt", options.appendSystemPrompt.getD ""] else []) ++
      (match options.allowedTools with
       | some l => l.flatMap (fun t => ["--allowedTools", t])
       | none => []),
      (match options.addDirs with
       | some l => l.flatMap (fun t => ["--add-dir", t])
       | none => []) ++
      (if options.verbose then ["--verbose"] else []), ?_⟩
    simp [buildClaudeArgs, List.append_assoc]
  · exact dedupeKeepFirst_mem _ [] t (List.mem_append_left _ ht) (List.not_mem_nil t)
  · exact dedupeKeepFirst_mem _ [] t (List.mem_append_right _ ht) (List.not_mem_nil t)

/-- Options for the C9 witness: one caller entry repeats a default entry
and one is new. -/
def optsW9 : ClaudeCliOptions :=
  ⟨"haiku", 660, 3, none, "json", none, none, none, none,
   some ["Bash(npm test:*)", "Bash(rm -rf:*)"], none, false⟩

/-- C9 witness: at the concrete options, both a default entry and a
caller-supplied entry are in the merge, and the merge has no
duplicates. -/
theorem buildClaudeArgs_disallowed_spec_witness :
    "Bash(npm test:*)" ∈ jsSetOfList (DEFAULT_DISALLOWED_TOOLS ++
      optsW9.disallowedTools.getD []) ∧
    "Bash(rm -rf:*)" ∈ jsSetOfList (DEFAULT_DISALLOWED_TOOLS ++
      optsW9.disallowedTools.getD []) ∧
    (jsSetOfList (DEFAULT_DISALLOWED_TOOLS ++ optsW9.disallowedTools.getD [])).Nodup :=
  ⟨(buildClaudeArgs_disallowed_spec optsW9).2.1 _ (by decide),
   (buildClaudeArgs_disallowed_spec optsW9).2.2.1 _ (by decide),
   (buildClaudeArgs_disallowed_spec optsW9).2.2.2⟩

/-- Queue invariant: performed writes followed by pending writes are
exactly the enqueued responses, each with its newline, in enqueue
order. -/
theorem runOut_invariant (evts : List OutEvent) :
    ∀ s : OutQueueState,
      (runOut evts s).written ++ (runOut evts s).pending =
        (s.written ++ s.pending) ++ (enqueuedOf evts).map (fun d => d ++ "\n") := by
  induction evts with
  | nil => intro s; simp [runOut, enqueuedOf]
  | cons e rest ih =>
      intro s
      cases e with
      | enqueue d =>
          have := ih { s with pending := s.pending ++ [d ++ "\n"] }
          simpa [runOut, outStep, enqueuedOf, List.append_assoc] using this
      | writeStep =>
          rcases hp : s.pending with _ | ⟨w, ws⟩
          · have := ih s
            simp only [runOut, outStep, hp, enqueuedOf]
            simpa [hp] using this
          · have := ih ⟨ws, s.written ++ [w]⟩
            simp only [runOut, outStep, hp, enqueuedOf]
            simpa [hp, List.append_assoc] using this

/-- C3: starting from the empty queue, after any sequence of `atomicOutput`
calls and write completions, the performed writes are a prefix of the
enqueued responses each terminated by exactly one newline, so the protocol
output stream is a concatenation of whole newline-terminated response
lines with no byte of one response interleaved inside another. -/
theorem atomicOutput_serialization (evts : List OutEvent) :
    ∃ k : Nat,
      (runOut evts ⟨[], []⟩).written =
        ((enqueuedOf evts).map (fun d => d ++ "\n")).take k ∧
      outStream (runOut evts ⟨[], []⟩) =
        String.join (((enqueuedOf evts).map (fun d => d ++ "\n")).take k) := by
  have h := runOut_invariant evts ⟨[], []⟩
  simp only [List.nil_append] at h
  refine ⟨(runOut evts ⟨[], []⟩).written.length, ?_, ?_⟩
  · rw [← h, List.take_left]
  · rw [outStream, ← h, List.take_left]
